import Mathlib

/-!
Verification of the bounded-concurrency batch-runner scripts
(`make-mp3.py`, `vid2mkv.py`, `tifftopdf.py`).

The Python sources are shallowly embedded: pure helpers become Lean
functions, the subprocess environment (exit codes, probe output,
file readability) is passed in explicitly, and the polling dispatcher
of `make-mp3.py` becomes a well-founded recursive state transformer
over an explicit `DispatchState`.
-/

set_option maxHeartbeats 1600000

/-! ## Model of the bounded dispatcher of `make-mp3.py`

A `WorkItem` abstracts one track to convert: `name` is the display /
output name handed to `startmp3`, `code` is the exit status the
underlying `lame` subprocess will eventually report, and `dur` is the
number of polling rounds the subprocess runs before finishing.
-/

structure WorkItem where
  name : String
  code : Int
  dur : Nat
deriving DecidableEq, Repr

/-- A subprocess in flight: `startmp3` returned `(ofname, Popen)`;
`finish` is the absolute round from which `poll()` reports `code`. -/
structure RunningProc where
  name : String
  code : Int
  finish : Nat
deriving DecidableEq, Repr

/-- Embedding of `startmp3` (make-mp3.py lines 70-89) under the mock
subprocess environment: launching item `it` at round `t` yields a
process that finishes at round `t + it.dur`. -/
def startmp3 (t : Nat) (it : WorkItem) : RunningProc :=
  { name := it.name, code := it.code, finish := t + it.dur }

/-- The `Popen.poll()` of a running process at round `t`: `none` while
still running, `some code` once finished. -/
def pollAt (t : Nat) (p : RunningProc) : Option Int :=
  if p.finish ≤ t then some p.code else none

/-- One pass of `manageprocs` (make-mp3.py lines 92-106) over the
process list, without the trailing `sleep`.  The Python loop mutates
`proclist` while iterating (`proclist.remove(it)` inside
`for it in proclist`), so after a removal the element that slides into
the current position is skipped; the embedding reproduces exactly that
iteration order.  Returns the surviving process list and the
`OutcomeRecord`s `(name, exit code)` printed during the pass. -/
def managepass (t : Nat) : List RunningProc → List RunningProc × List (String × Int)
  | [] => ([], [])
  | p :: rest =>
    match pollAt t p with
    | none =>
      let r := managepass t rest
      (p :: r.1, r.2)
    | some c =>
      match rest with
      | [] => ([], [(p.name, c)])
      | q :: rest2 =>
        let r := managepass t rest2
        (q :: r.1, (p.name, c) :: r.2)

/-- Dispatcher state: the active process list `procs`, the current
polling round `time` (advanced by the `sleep(0.5)` ending every
`manageprocs` call), the stream `recs` of emitted OutcomeRecords, and
`trace`, the sizes of the active set observed after every mutation of
`procs` (the concurrency high-water trace). -/
structure DispatchState where
  procs : List RunningProc
  time : Nat
  recs : List (String × Int)
  trace : List Nat
deriving DecidableEq, Repr

/-- One full `manageprocs(procs)` call: a polling pass followed by the
`sleep(0.5)` that advances the round counter. -/
def manageStep (s : DispatchState) : DispatchState :=
  let r := managepass s.time s.procs
  { procs := r.1, time := s.time + 1, recs := s.recs ++ r.2,
    trace := s.trace ++ [r.1.length] }

/-- Largest finish round among the active processes. -/
def maxFinish (l : List RunningProc) : Nat :=
  l.foldr (fun p a => max p.finish a) 0

/-- Termination measure for the polling loops. -/
def loopMeasure (s : DispatchState) : Nat :=
  s.procs.length + (maxFinish s.procs - s.time)

theorem managepass_sublist (t : Nat) (l : List RunningProc) :
    (managepass t l).1.Sublist l := by
  induction l using managepass.induct t with
  | case1 => simp [managepass]
  | case2 p rest h ih =>
    simp only [managepass, h]
    exact ih.cons₂ p
  | case3 p c h => simp [managepass, h]
  | case4 p c h q rest2 ih =>
    simp only [managepass, h]
    exact (ih.cons₂ q).cons p

theorem managepass_length_le (t : Nat) (l : List RunningProc) :
    (managepass t l).1.length ≤ l.length :=
  (managepass_sublist t l).length_le

theorem maxFinish_cons (q : RunningProc) (rest : List RunningProc) :
    maxFinish (q :: rest) = max q.finish (maxFinish rest) := rfl

theorem le_maxFinish (l : List RunningProc) (p : RunningProc) (hp : p ∈ l) :
    p.finish ≤ maxFinish l := by
  induction l with
  | nil => cases hp
  | cons q rest ih =>
    rw [maxFinish_cons]
    rcases List.mem_cons.mp hp with h | h
    · subst h; exact le_max_left _ _
    · exact le_trans (ih h) (le_max_right _ _)

theorem maxFinish_le (l : List RunningProc) (b : Nat)
    (h : ∀ p ∈ l, p.finish ≤ b) : maxFinish l ≤ b := by
  induction l with
  | nil => simp [maxFinish]
  | cons q rest ih =>
    rw [maxFinish_cons, max_le_iff]
    exact ⟨h q (by simp), ih fun p hp => h p (by simp [hp])⟩

theorem maxFinish_mono {l₁ l₂ : List RunningProc} (h : l₁.Sublist l₂) :
    maxFinish l₁ ≤ maxFinish l₂ :=
  maxFinish_le l₁ (maxFinish l₂) fun p hp => le_maxFinish l₂ p (h.subset hp)

theorem managepass_no_finish (t : Nat) (l : List RunningProc)
    (h : ∀ p ∈ l, t < p.finish) : managepass t l = (l, []) := by
  induction l with
  | nil => rfl
  | cons p rest ih =>
    have hp : pollAt t p = none := by
      simp [pollAt]; exact h p (by simp)
    simp [managepass, hp, ih fun q hq => h q (by simp [hq])]

theorem managepass_progress (t : Nat) (l : List RunningProc)
    (p : RunningProc) (hp : p ∈ l) (hf : p.finish ≤ t) :
    (managepass t l).1.length < l.length := by
  induction l with
  | nil => cases hp
  | cons q rest ih =>
    by_cases hq : q.finish ≤ t
    · have hpoll : pollAt t q = some q.code := by simp [pollAt, hq]
      match rest with
      | [] => simp [managepass, hpoll]
      | r :: rest2 =>
        simp only [managepass, hpoll, List.length_cons]
        have := managepass_length_le t rest2
        omega
    · have hpoll : pollAt t q = none := by simp [pollAt, hq]
      have hpr : p ∈ rest := by
        rcases List.mem_cons.mp hp with h | h
        · exact absurd (h ▸ hf) hq
        · exact h
      simp only [managepass, hpoll, List.length_cons]
      have := ih hpr
      omega

theorem manageStep_decreases (s : DispatchState) (h : s.procs ≠ []) :
    loopMeasure (manageStep s) < loopMeasure s := by
  by_cases hfin : ∃ p ∈ s.procs, p.finish ≤ s.time
  · rcases hfin with ⟨p, hp, hf⟩
    have h1 : (managepass s.time s.procs).1.length < s.procs.length :=
      managepass_progress s.time s.procs p hp hf
    have h2 : maxFinish (managepass s.time s.procs).1 ≤ maxFinish s.procs :=
      maxFinish_mono (managepass_sublist s.time s.procs)
    simp only [loopMeasure, manageStep]
    omega
  · push_neg at hfin
    have heq : managepass s.time s.procs = (s.procs, []) :=
      managepass_no_finish s.time s.procs hfin
    obtain ⟨p, hp⟩ := List.exists_mem_of_ne_nil s.procs h
    have h1 : s.time < p.finish := hfin p hp
    have h2 : s.time < maxFinish s.procs := lt_of_lt_of_le h1 (le_maxFinish _ _ hp)
    simp only [loopMeasure, manageStep, heq]
    omega

/-- Embedding of the inner throttle loop of `main` (make-mp3.py lines
124-125): `while len(procs) == maxprocs: manageprocs(procs)`.  The
conjunct `0 < m` is vacuous for every reachable call (`cpu_count()`
is at least 1) and only renders the function total. -/
def innerWhile (m : Nat) (s : DispatchState) : DispatchState :=
  if s.procs.length = m ∧ 0 < m then innerWhile m (manageStep s) else s
termination_by loopMeasure s
decreasing_by
  exact manageStep_decreases s (by rename_i h; rcases h with ⟨h1, h2⟩; intro hnil; simp [hnil] at h1; omega)

/-- Embedding of the drain loop of `main` (make-mp3.py lines 127-128):
`while len(procs) > 0: manageprocs(procs)`. -/
def drainLoop (s : DispatchState) : DispatchState :=
  if s.procs ≠ [] then drainLoop (manageStep s) else s
termination_by loopMeasure s
decreasing_by
  exact manageStep_decreases s (by assumption)

/-- Embedding of the launch loop of `main` (make-mp3.py lines 123-126):
for each track, throttle while the active set is full, then append the
freshly launched process.  The trace records the active-set size right
after the append. -/
def launchLoop (m : Nat) : List WorkItem → DispatchState → DispatchState
  | [], s => s
  | it :: rest, s =>
    let s1 := innerWhile m s
    launchLoop m rest
      { procs := s1.procs ++ [startmp3 s1.time it], time := s1.time,
        recs := s1.recs,
        trace := s1.trace ++ [s1.procs.length + 1] }

/-- The whole dispatcher run of `main` (make-mp3.py lines 122-128):
launch every track through the throttled loop, then drain. -/
def dispatchRun (m : Nat) (items : List WorkItem) : DispatchState :=
  drainLoop (launchLoop m items { procs := [], time := 0, recs := [], trace := [] })

/-! ## Python string primitives

File names are embedded as `List Char`.  `splitext` is the POSIX
`os.path.splitext` (`genericpath._splitext` with separator `/` and
extension separator `.`): the extension starts at the last dot, except
that dots that merely lead the basename do not create an extension.
-/

/-- Python `str.rfind` for a single character: index of the last
occurrence, `none` when absent (Python returns -1). -/
def rfindChar (c : Char) (l : List Char) : Option Nat :=
  match (l.reverse).findIdx? (fun d => d == c) with
  | none => none
  | some i => some (l.length - 1 - i)

/-- Index comparison `dotIndex > sepIndex` with Python's -1 for
"not found". -/
def rIdxVal (o : Option Nat) : Int :=
  match o with
  | none => -1
  | some i => (i : Int)

/-- Embedding of `os.path.splitext` restricted to POSIX paths. -/
def splitext (p : List Char) : List Char × List Char :=
  let sepIndex := rIdxVal (rfindChar '/' p)
  let dotIndex := rIdxVal (rfindChar '.' p)
  if sepIndex < dotIndex then
    if ((p.drop (sepIndex + 1).toNat).take (dotIndex - (sepIndex + 1)).toNat).all
        (fun ch => ch == '.') then
      (p, [])
    else
      (p.take dotIndex.toNat, p.drop dotIndex.toNat)
  else
    (p, [])

/-! ## Model of `runencoder` from `vid2mkv.py` -/

/-- The recognized video extensions of `vid2mkv.py` (lines 100-101). -/
def knownExts : List (List Char) :=
  [".mp4".toList, ".avi".toList, ".wmv".toList, ".flv".toList, ".mpg".toList,
   ".mpeg".toList, ".mov".toList, ".ogv".toList, ".mkv".toList, ".webm".toList]

/-- Outcome of one `runencoder` call: the returned `(fname, rv)` pair
and, when a conversion was actually started, the derived output file
name it writes to. -/
structure EncOutcome where
  result : List Char × Int
  ofn : Option (List Char)
deriving DecidableEq, Repr

/-- Embedding of `runencoder` (vid2mkv.py lines 86-113).  `rvOf` is the
environment: the exit status `ffmpeg` reports for the given input
file.  The quality flags only enter the suppressed argument vector and
are omitted.  Files with unrecognized extension are skipped with
return value 0 and no launch. -/
def runencoder (rvOf : List Char → Int) (fname : List Char) : EncOutcome :=
  let se := splitext fname
  if (se.2.map Char.toLower) ∈ knownExts then
    let ofn := se.1 ++ ".mkv".toList
    { result := (fname, rvOf fname), ofn := some ofn }
  else
    { result := (fname, 0), ofn := none }

/-- Output name derivation of `tiffconv` (tifftopdf.py line 121):
`re.sub` with pattern dot-t-i-f with one or two final fs, anchored at
the end, case-insensitive, replaced by `.pdf`; a name matching nowhere
is returned unchanged. -/
def tifOutname (f : List Char) : List Char :=
  if (".tiff".toList).isSuffixOf (f.map Char.toLower) then
    f.take (f.length - 5) ++ ".pdf".toList
  else if (".tif".toList).isSuffixOf (f.map Char.toLower) then
    f.take (f.length - 4) ++ ".pdf".toList
  else f


/-! ## The concurrency invariant (claim C1) -/

/-- Invariant carried through the dispatcher: every active-set size
recorded so far is at most `m`, and the current active set is at most
`m`. -/
def TraceOK (m : Nat) (s : DispatchState) : Prop :=
  (∀ x ∈ s.trace, x ≤ m) ∧ s.procs.length ≤ m

theorem manageStep_traceOK {m : Nat} {s : DispatchState} (h : TraceOK m s) :
    TraceOK m (manageStep s) := by
  obtain ⟨h1, h2⟩ := h
  have hlen : (managepass s.time s.procs).1.length ≤ s.procs.length :=
    managepass_length_le _ _
  constructor
  · intro x hx
    simp only [manageStep, List.mem_append, List.mem_singleton] at hx
    rcases hx with hx | hx
    · exact h1 x hx
    · omega
  · simp only [manageStep]; omega

theorem innerWhile_traceOK (m : Nat) (s : DispatchState) :
    TraceOK m s → TraceOK m (innerWhile m s) := by
  induction s using innerWhile.induct m with
  | case1 s hc ih =>
    intro h
    unfold innerWhile
    rw [if_pos hc]
    exact ih (manageStep_traceOK h)
  | case2 s hc =>
    intro h
    unfold innerWhile
    rw [if_neg hc]
    exact h

theorem innerWhile_exit (m : Nat) (s : DispatchState) :
    ¬((innerWhile m s).procs.length = m ∧ 0 < m) := by
  induction s using innerWhile.induct m with
  | case1 s hc ih =>
    unfold innerWhile
    rw [if_pos hc]
    exact ih
  | case2 s hc =>
    unfold innerWhile
    rw [if_neg hc]
    exact hc

theorem drainLoop_traceOK (m : Nat) (s : DispatchState) :
    TraceOK m s → TraceOK m (drainLoop s) := by
  induction s using drainLoop.induct with
  | case1 s hc ih =>
    intro h
    unfold drainLoop
    rw [if_pos hc]
    exact ih (manageStep_traceOK h)
  | case2 s hc =>
    intro h
    unfold drainLoop
    rw [if_neg hc]
    exact h

theorem drainLoop_procs_nil (s : DispatchState) : (drainLoop s).procs = [] := by
  induction s using drainLoop.induct with
  | case1 s hc ih =>
    unfold drainLoop
    rw [if_pos hc]
    exact ih
  | case2 s hc =>
    unfold drainLoop
    rw [if_neg hc]
    simpa using hc

theorem launchLoop_traceOK (m : Nat) (hm : 1 ≤ m) (items : List WorkItem) :
    ∀ s : DispatchState, TraceOK m s → TraceOK m (launchLoop m items s) := by
  induction items with
  | nil => intro s h; exact h
  | cons it rest ih =>
    intro s h
    have h1 := innerWhile_traceOK m s h
    have h2 := innerWhile_exit m s
    have hne : (innerWhile m s).procs.length ≠ m := fun he => h2 ⟨he, hm⟩
    have hlt : (innerWhile m s).procs.length < m := by
      rcases h1 with ⟨_, hle⟩
      omega
    simp only [launchLoop]
    apply ih
    constructor
    · intro x hx
      simp only [List.mem_append, List.mem_singleton] at hx
      rcases hx with hx | hx
      · exact h1.1 x hx
      · omega
    · simp only [List.length_append, List.length_singleton]
      omega

/-- Claim C1: for every sequence of WorkItems and every concurrency
limit `m ≥ 1` (the `cpu_count()` default is always at least 1), every
active-set size observed during the dispatcher's run — after each
launch and after each polling pass — is at most `m`. -/
theorem C1_launched_at_most_limit (m : Nat) (items : List WorkItem)
    (hm : 1 ≤ m) :
    ∀ x ∈ (dispatchRun m items).trace, x ≤ m := by
  have h0 : TraceOK m { procs := [], time := 0, recs := [], trace := [] } :=
    ⟨by simp, by simp⟩
  exact (drainLoop_traceOK m _ (launchLoop_traceOK m hm items _ h0)).1

/-- Witness for C1 at a concrete run: three items, limit 2. -/
theorem C1_launched_at_most_limit_witness :
    (1 : Nat) ≤ 2 ∧
      ∀ x ∈ (dispatchRun 2 [⟨"a", 0, 1⟩, ⟨"b", 0, 0⟩, ⟨"c", 3, 2⟩]).trace, x ≤ 2 :=
  ⟨by decide, C1_launched_at_most_limit 2 _ (by decide)⟩

/-! ## One OutcomeRecord per launched item (claims C2 and C3) -/

/-- The OutcomeRecord a running process will produce. -/
def outc (p : RunningProc) : String × Int := (p.name, p.code)

/-- The OutcomeRecord a work item will produce once run. -/
def itemOutc (it : WorkItem) : String × Int := (it.name, it.code)

theorem pollAt_eq_some {t : Nat} {p : RunningProc} {c : Int}
    (h : pollAt t p = some c) : c = p.code := by
  unfold pollAt at h
  by_cases hf : p.finish ≤ t
  · rw [if_pos hf] at h; exact (Option.some_injective _ h).symm
  · rw [if_neg hf] at h; cases h

theorem managepass_perm (t : Nat) (l : List RunningProc) :
    ((managepass t l).1.map outc ++ (managepass t l).2).Perm (l.map outc) := by
  induction l using managepass.induct t with
  | case1 => simp [managepass]
  | case2 p rest h ih =>
    simp only [managepass, h, List.map_cons, List.cons_append]
    exact ih.cons (outc p)
  | case3 p c h =>
    simp [managepass, h, outc, pollAt_eq_some h]
  | case4 p c h q rest2 ih =>
    simp only [managepass, h, List.map_cons, List.cons_append]
    have h1 : (((managepass t rest2).1.map outc) ++ (p.name, c) :: (managepass t rest2).2).Perm
        ((p.name, c) :: ((managepass t rest2).1.map outc ++ (managepass t rest2).2)) :=
      List.perm_middle
    have h2 : ((p.name, c) :: ((managepass t rest2).1.map outc ++ (managepass t rest2).2)).Perm
        ((p.name, c) :: rest2.map outc) := ih.cons _
    have h3 : (p.name, c) = outc p := by simp [outc, pollAt_eq_some h]
    have h4 := (h1.trans h2).cons (outc q)
    refine h4.trans ?_
    rw [h3]
    exact List.Perm.swap _ _ _

theorem manageStep_perm (s : DispatchState) :
    ((manageStep s).recs ++ (manageStep s).procs.map outc).Perm
      (s.recs ++ s.procs.map outc) := by
  simp only [manageStep, List.append_assoc]
  refine List.Perm.append_left s.recs ?_
  exact (List.perm_append_comm).trans (managepass_perm s.time s.procs)

theorem innerWhile_perm (m : Nat) (s : DispatchState) :
    ((innerWhile m s).recs ++ (innerWhile m s).procs.map outc).Perm
      (s.recs ++ s.procs.map outc) := by
  induction s using innerWhile.induct m with
  | case1 s hc ih =>
    unfold innerWhile
    rw [if_pos hc]
    exact ih.trans (manageStep_perm s)
  | case2 s hc =>
    unfold innerWhile
    rw [if_neg hc]

theorem drainLoop_perm (s : DispatchState) :
    ((drainLoop s).recs ++ (drainLoop s).procs.map outc).Perm
      (s.recs ++ s.procs.map outc) := by
  induction s using drainLoop.induct with
  | case1 s hc ih =>
    unfold drainLoop
    rw [if_pos hc]
    exact ih.trans (manageStep_perm s)
  | case2 s hc =>
    unfold drainLoop
    rw [if_neg hc]

theorem launchLoop_perm (m : Nat) (items : List WorkItem) :
    ∀ s : DispatchState,
      ((launchLoop m items s).recs ++ (launchLoop m items s).procs.map outc).Perm
        (s.recs ++ s.procs.map outc ++ items.map itemOutc) := by
  induction items with
  | nil => intro s; simp [launchLoop]
  | cons it rest ih =>
    intro s
    simp only [launchLoop]
    have hout : outc (startmp3 (innerWhile m s).time it) = itemOutc it := by
      simp [outc, itemOutc, startmp3]
    have key : ((innerWhile m s).recs ++
          ((innerWhile m s).procs ++ [startmp3 (innerWhile m s).time it]).map outc ++
          rest.map itemOutc).Perm
        (s.recs ++ s.procs.map outc ++ (it :: rest).map itemOutc) := by
      simp only [List.map_append, List.map_cons, List.map_nil, hout,
        List.append_assoc, List.singleton_append]
      rw [← List.append_assoc, ← List.append_assoc]
      exact (innerWhile_perm m s).append_right _
    exact (ih _).trans key

/-- The record stream of a full dispatcher run is a permutation of one
OutcomeRecord per input item. -/
theorem dispatchRun_perm (m : Nat) (items : List WorkItem) :
    (dispatchRun m items).recs.Perm (items.map itemOutc) := by
  have h1 := drainLoop_perm (launchLoop m items { procs := [], time := 0, recs := [], trace := [] })
  have h2 := launchLoop_perm m items { procs := [], time := 0, recs := [], trace := [] }
  have h3 : (dispatchRun m items).procs = [] := drainLoop_procs_nil _
  unfold dispatchRun at h3 ⊢
  rw [h3] at h1
  simpa using h1.trans h2

/-- Claim C2: for every item sequence (with the reachable limit
`m ≥ 1`), the dispatcher's loop terminates with empty Launched set and
emits exactly one OutcomeRecord per launched item — the record stream
is a permutation of one `(name, code)` pair per item, never zero and
never two for any item; in particular when every subprocess exits 0,
exactly `N` success records are emitted. -/
theorem C2_one_record_per_item_and_termination (m : Nat) (items : List WorkItem)
    (hm : 1 ≤ m) :
    (dispatchRun m items).procs = [] ∧
    (dispatchRun m items).recs.Perm (items.map itemOutc) ∧
    ((∀ it ∈ items, it.code = 0) →
      (dispatchRun m items).recs.length = items.length ∧
      (dispatchRun m items).recs.countP (fun o => o.2 == 0) = items.length) := by
  refine ⟨drainLoop_procs_nil _, dispatchRun_perm m items, ?_⟩
  intro hall
  have hperm := dispatchRun_perm m items
  constructor
  · simpa using hperm.length_eq
  · have hsat : ∀ o ∈ items.map itemOutc, (fun o : String × Int => o.2 == 0) o = true := by
      intro o ho
      simp only [List.mem_map] at ho
      obtain ⟨it, hit, rfl⟩ := ho
      simp [itemOutc, hall it hit]
    rw [hperm.countP_eq, List.countP_eq_length.mpr hsat, List.length_map]

/-- Witness for C2: limit 2, three items that all succeed — exactly 3
records, all successes, empty final active set. -/
theorem C2_one_record_per_item_and_termination_witness :
    (1 : Nat) ≤ 2 ∧
    (∀ it ∈ [(⟨"a", 0, 1⟩ : WorkItem), ⟨"b", 0, 0⟩, ⟨"c", 0, 2⟩], it.code = 0) ∧
    ((dispatchRun 2 [⟨"a", 0, 1⟩, ⟨"b", 0, 0⟩, ⟨"c", 0, 2⟩]).procs = [] ∧
      (dispatchRun 2 [⟨"a", 0, 1⟩, ⟨"b", 0, 0⟩, ⟨"c", 0, 2⟩]).recs.Perm
        [("a", 0), ("b", 0), ("c", 0)] ∧
      (dispatchRun 2 [⟨"a", 0, 1⟩, ⟨"b", 0, 0⟩, ⟨"c", 0, 2⟩]).recs.length = 3 ∧
      (dispatchRun 2 [⟨"a", 0, 1⟩, ⟨"b", 0, 0⟩, ⟨"c", 0, 2⟩]).recs.countP
        (fun o => o.2 == 0) = 3) := by
  have h := C2_one_record_per_item_and_termination 2
    [⟨"a", 0, 1⟩, ⟨"b", 0, 0⟩, ⟨"c", 0, 2⟩] (by decide)
  have hz : ∀ it ∈ [(⟨"a", 0, 1⟩ : WorkItem), ⟨"b", 0, 0⟩, ⟨"c", 0, 2⟩],
      it.code = 0 := by decide
  exact ⟨by decide, hz, h.1, h.2.1, (h.2.2 hz).1, (h.2.2 hz).2⟩

/-- Claim C3: when exactly one item's subprocess exits non-zero, the
run emits exactly one failure OutcomeRecord — carrying that item's
name and exit code — and the other `N - 1` items are still reported
as successes; nothing is cancelled. -/
theorem C3_single_failure_does_not_cancel_siblings (m : Nat)
    (pre post : List WorkItem) (k : WorkItem) (hm : 1 ≤ m)
    (hpre : ∀ it ∈ pre, it.code = 0) (hpost : ∀ it ∈ post, it.code = 0)
    (hk : k.code ≠ 0) :
    (dispatchRun m (pre ++ k :: post)).recs.filter (fun o => !(o.2 == 0)) =
      [(k.name, k.code)] ∧
    (dispatchRun m (pre ++ k :: post)).recs.length = pre.length + post.length + 1 ∧
    (dispatchRun m (pre ++ k :: post)).recs.countP (fun o => o.2 == 0) =
      pre.length + post.length := by
  have hperm := dispatchRun_perm m (pre ++ k :: post)
  have hprenil : (pre.map itemOutc).filter (fun o => !(o.2 == 0)) = [] := by
    rw [List.filter_eq_nil_iff]
    intro o ho
    simp only [List.mem_map] at ho
    obtain ⟨it, hit, rfl⟩ := ho
    simp [itemOutc, hpre it hit]
  have hpostnil : (post.map itemOutc).filter (fun o => !(o.2 == 0)) = [] := by
    rw [List.filter_eq_nil_iff]
    intro o ho
    simp only [List.mem_map] at ho
    obtain ⟨it, hit, rfl⟩ := ho
    simp [itemOutc, hpost it hit]
  have hkpos : (fun o : String × Int => !(o.2 == 0)) (itemOutc k) = true := by
    simp [itemOutc, hk]
  have hr : ((pre ++ k :: post).map itemOutc).filter (fun o => !(o.2 == 0)) =
      [(k.name, k.code)] := by
    rw [List.map_append, List.filter_append, hprenil, List.map_cons, List.filter_cons]
    simp [itemOutc, hk, hpostnil]
  refine ⟨?_, ?_, ?_⟩
  · have hfil := hperm.filter (fun o => !(o.2 == 0))
    rw [hr] at hfil
    exact List.perm_singleton.mp hfil
  · have := hperm.length_eq
    simp only [List.length_map, List.length_append, List.length_cons] at this
    omega
  · have hprelen : (pre.map itemOutc).countP (fun o => o.2 == 0) = pre.length := by
      rw [List.countP_eq_length.mpr, List.length_map]
      intro o ho
      simp only [List.mem_map] at ho
      obtain ⟨it, hit, rfl⟩ := ho
      simp [itemOutc, hpre it hit]
    have hpostlen : (post.map itemOutc).countP (fun o => o.2 == 0) = post.length := by
      rw [List.countP_eq_length.mpr, List.length_map]
      intro o ho
      simp only [List.mem_map] at ho
      obtain ⟨it, hit, rfl⟩ := ho
      simp [itemOutc, hpost it hit]
    rw [hperm.countP_eq, List.map_append, List.countP_append, hprelen, List.map_cons,
      List.countP_cons]
    simp [itemOutc, hk, hpostlen]

theorem splitext_append (p : List Char) :
    (splitext p).1 ++ (splitext p).2 = p := by
  unfold splitext
  by_cases h1 : rIdxVal (rfindChar '/' p) < rIdxVal (rfindChar '.' p)
  · rw [if_pos h1]
    by_cases h2 : ((p.drop (rIdxVal (rfindChar '/' p) + 1).toNat).take
        (rIdxVal (rfindChar '.' p) - (rIdxVal (rfindChar '/' p) + 1)).toNat).all
        (fun ch => ch == '.')
    · rw [if_pos h2]; simp
    · rw [if_neg h2]; exact List.take_append_drop _ p
  · rw [if_neg h1]; simp


/-- Witness for C3: limit 2, item `b` fails with code 2, `a` and `c`
succeed. -/
theorem C3_single_failure_does_not_cancel_siblings_witness :
    (1 : Nat) ≤ 2 ∧
    ((dispatchRun 2 ([⟨"a", 0, 0⟩] ++ (⟨"b", 2, 1⟩ : WorkItem) :: [⟨"c", 0, 0⟩])).recs.filter
        (fun o => !(o.2 == 0)) = [("b", 2)] ∧
      (dispatchRun 2 ([⟨"a", 0, 0⟩] ++ (⟨"b", 2, 1⟩ : WorkItem) :: [⟨"c", 0, 0⟩])).recs.length =
        1 + 1 + 1 ∧
      (dispatchRun 2 ([⟨"a", 0, 0⟩] ++ (⟨"b", 2, 1⟩ : WorkItem) :: [⟨"c", 0, 0⟩])).recs.countP
        (fun o => o.2 == 0) = 1 + 1) :=
  ⟨by decide,
    C3_single_failure_does_not_cancel_siblings 2 [⟨"a", 0, 0⟩] [⟨"c", 0, 0⟩] ⟨"b", 2, 1⟩
      (by decide) (by decide) (by decide) (by decide)⟩

/-! ## Output-name derivation (claim C6) -/

/-- Claim C6 counterexample: `vid2mkv` accepts an input named `a.mkv`
(the extension `.mkv` is in its known list) yet derives the output
name `a.mkv` — identical to the input, so the derived name does
collide with the input name. -/
theorem C6_counterexample :
    ((splitext ("a.mkv".toList)).2.map Char.toLower) ∈ knownExts ∧
      (runencoder (fun _ => 0) ("a.mkv".toList)).ofn = some ("a.mkv".toList) := by
  constructor
  · decide
  · decide

/-- Claim C6 (amended): the output name is a deterministic extension
substitution on the input name, and it differs from the input except
when the substitution leaves the name unchanged — for `vid2mkv`, when
the input's extension is already exactly `.mkv`; for `tifftopdf`,
whenever the input does end in `.tif` or `.tiff` (case-insensitively)
the substituted name always differs from the input. -/
theorem C6_output_name_substitution :
    (∀ (rvOf : List Char → Int) (f : List Char),
        ((splitext f).2.map Char.toLower) ∈ knownExts →
        (splitext f).2 ≠ ".mkv".toList →
        (runencoder rvOf f).ofn = some ((splitext f).1 ++ ".mkv".toList) ∧
          (splitext f).1 ++ ".mkv".toList ≠ f) ∧
    (∀ f : List Char,
        ((".tif".toList).isSuffixOf (f.map Char.toLower) ∨
          (".tiff".toList).isSuffixOf (f.map Char.toLower)) →
        tifOutname f ≠ f) := by
  constructor
  · intro rvOf f hacc hne
    constructor
    · simp only [runencoder, if_pos hacc]
    · intro heq
      have h2 : (splitext f).1 ++ ".mkv".toList = (splitext f).1 ++ (splitext f).2 :=
        heq.trans (splitext_append f).symm
      exact hne (List.append_cancel_left h2).symm
  · intro f hf
    by_cases h5 : (".tiff".toList).isSuffixOf (f.map Char.toLower)
    · obtain ⟨t, ht⟩ := List.isSuffixOf_iff_suffix.mp h5
      have hn : f.length = t.length + 5 := by
        have hl := congrArg List.length ht
        simpa using hl.symm
      have hred : tifOutname f = f.take (f.length - 5) ++ ".pdf".toList := by
        unfold tifOutname
        rw [if_pos h5]
      rw [hred]
      intro heq
      have hlen := congrArg List.length heq
      simp only [List.length_append, List.length_take] at hlen
      have hmin : min (f.length - 5) f.length = f.length - 5 :=
        min_eq_left (Nat.sub_le _ _)
      rw [hmin] at hlen
      have : (".pdf".toList).length = 4 := by decide
      omega
    · have h4 : (".tif".toList).isSuffixOf (f.map Char.toLower) := by
        rcases hf with h | h
        · exact h
        · exact absurd h h5
      obtain ⟨t, ht⟩ := List.isSuffixOf_iff_suffix.mp h4
      have hn : f.length = t.length + 4 := by
        have hl := congrArg List.length ht
        simpa using hl.symm
      have hred : tifOutname f = f.take (f.length - 4) ++ ".pdf".toList := by
        unfold tifOutname
        rw [if_neg h5, if_pos h4]
      rw [hred]
      intro heq
      have hcan : ".pdf".toList = f.drop (f.length - 4) :=
        List.append_cancel_left (heq.trans (List.take_append_drop _ f).symm)
      have hmap : (f.drop (f.length - 4)).map Char.toLower = ".tif".toList := by
        rw [List.map_drop]
        have hlt : f.length - 4 = t.length := by omega
        rw [hlt, ← ht, List.drop_left]
      rw [← hcan] at hmap
      exact absurd hmap (by decide)

/-- Witness for the amended C6 at concrete inputs `a.mp4` and
`b.tif`. -/
theorem C6_output_name_substitution_witness :
    (((splitext ("a.mp4".toList)).2.map Char.toLower) ∈ knownExts ∧
      (splitext ("a.mp4".toList)).2 ≠ ".mkv".toList ∧
      ((runencoder (fun _ => 0) ("a.mp4".toList)).ofn =
          some ((splitext ("a.mp4".toList)).1 ++ ".mkv".toList) ∧
        (splitext ("a.mp4".toList)).1 ++ ".mkv".toList ≠ "a.mp4".toList)) ∧
    tifOutname ("b.tif".toList) ≠ "b.tif".toList :=
  ⟨⟨by decide, by decide,
      C6_output_name_substitution.1 (fun _ => 0) ("a.mp4".toList) (by decide) (by decide)⟩,
    C6_output_name_substitution.2 ("b.tif".toList) (Or.inl (by decide))⟩

/-! ## Model of `trackdata` from `make-mp3.py`

The listing file is embedded as `Option (List (List Char))`: `none`
when opening raises IOError (file absent/unreadable), otherwise the
list of lines.  `access` embeds `os.access(ifname, os.R_OK)`.
An uncaught Python exception (IndexError from `pop`, ValueError from
`int()`) is modelled as result `none`.
-/

/-- Python whitespace for `str.split()` / `str.strip()` (the ASCII
whitespace characters). -/
def isSpacePy (c : Char) : Bool :=
  c == ' ' || c == '\t' || c == '\n' || c == '\r' || c == '\x0b' || c == '\x0c'

/-- Python `str.strip()`. -/
def stripPy (l : List Char) : List Char :=
  ((l.dropWhile isSpacePy).reverse.dropWhile isSpacePy).reverse

/-- Word accumulator for `splitPy`: `acc` holds the current word in
reverse. -/
def splitPyAux : List Char → List Char → List (List Char)
  | [], acc => if acc.isEmpty then [] else [acc.reverse]
  | c :: cs, acc =>
    if isSpacePy c then
      if acc.isEmpty then splitPyAux cs []
      else acc.reverse :: splitPyAux cs []
    else splitPyAux cs (c :: acc)

/-- Python `str.split()` with no argument: words separated by
whitespace runs, never producing empty words. -/
def splitPy (l : List Char) : List (List Char) :=
  splitPyAux l []

/-- Numeric value of the digits of an integer literal, skipping the
underscore separators. -/
def digitsVal (ds : List Char) : Nat :=
  ds.foldl (fun a c => if c == '_' then a else a * 10 + (c.toNat - '0'.toNat)) 0

/-- No two adjacent underscores. -/
def noDoubleUnderscore : List Char → Bool
  | [] => true
  | [_] => true
  | a :: b :: rest => !(a == '_' && b == '_') && noDoubleUnderscore (b :: rest)

/-- Validity of the digit part of a Python decimal `int()` literal:
nonempty, digits and underscores only, first and last characters are
digits, and underscores are single. -/
def validDigits (ds : List Char) : Bool :=
  !ds.isEmpty &&
  ds.all (fun c => c.isDigit || c == '_') &&
  (match ds.head? with | some c => c.isDigit | none => false) &&
  (match ds.getLast? with | some c => c.isDigit | none => false) &&
  noDoubleUnderscore ds

/-- Python `int()` on a whitespace-free word: optional sign followed
by a valid decimal digit run; `none` models a ValueError. -/
def parseIntPy (w : List Char) : Option Int :=
  match w with
  | '+' :: ds => if validDigits ds then some (digitsVal ds : Int) else none
  | '-' :: ds => if validDigits ds then some (-(digitsVal ds : Int)) else none
  | ds => if validDigits ds then some (digitsVal ds : Int) else none

/-- Python format spec `02d`: decimal rendering zero-padded to at
least two characters. -/
def formatNum2 (n : Int) : List Char :=
  let s := (toString n).toList
  if s.length < 2 then '0' :: s else s

/-- Input WAV name `trackNN.cdda.wav` derived from the track number
(make-mp3.py line 62). -/
def ifnameFor (n : Int) : List Char :=
  "track".toList ++ formatNum2 n ++ ".cdda.wav".toList

/-- Output MP3 name `trackNN.mp3` derived from the track number
(make-mp3.py line 64). -/
def ofnameFor (n : Int) : List Char :=
  "track".toList ++ formatNum2 n ++ ".mp3".toList

/-- The 6-tuple appended by `trackdata` for each accepted track line. -/
structure Track where
  num : Int
  title : List Char
  artist : List Char
  album : List Char
  ifname : List Char
  ofname : List Char
deriving DecidableEq, Repr

/-- The per-line loop of `trackdata` (make-mp3.py lines 56-66):
blank lines are skipped, the leading word must parse as an int
(ValueError propagates, modelled `none`), and a line is kept exactly
when its expected input file is readable. -/
def trackLoop (artist album : List Char) (access : List Char → Bool) :
    List (List Char) → Option (List Track)
  | [] => some []
  | l :: rest =>
    match splitPy l with
    | [] => trackLoop artist album access rest
    | w :: ws =>
      match parseIntPy w with
      | none => none
      | some num =>
        let ifn := ifnameFor num
        if access ifn then
          match trackLoop artist album access rest with
          | none => none
          | some ts =>
            some (Track.mk num (List.intercalate [' '] ws) artist album ifn
              (ofnameFor num) :: ts)
        else trackLoop artist album access rest

/-- Embedding of `trackdata` (make-mp3.py lines 29-67).  IOError on
open returns the empty list; the two leading `pop(0)` calls raise
IndexError (modelled `none`) when fewer than two lines exist. -/
def trackdata (contents : Option (List (List Char))) (access : List Char → Bool) :
    Option (List Track) :=
  match contents with
  | none => some []
  | some [] => none
  | some [_] => none
  | some (a :: b :: rest) => trackLoop (stripPy b) (stripPy a) access rest

/-- The track number a listing line contributes, if any. -/
def lineNum (l : List Char) : Option Int :=
  match splitPy l with
  | [] => none
  | w :: _ => parseIntPy w

/-- Well-formedness of one track line: blank, or its first word parses
as an int. -/
def lineOK (l : List Char) : Bool :=
  match splitPy l with
  | [] => true
  | w :: _ => (parseIntPy w).isSome

theorem trackLoop_spec (artist album : List Char) (access : List Char → Bool)
    (rest : List (List Char)) (hwf : ∀ l ∈ rest, lineOK l = true) :
    ∃ ts, trackLoop artist album access rest = some ts ∧
      ts.map Track.num =
        (rest.filterMap lineNum).filter (fun n => access (ifnameFor n)) ∧
      ∀ tr ∈ ts, access tr.ifname = true := by
  induction rest with
  | nil => exact ⟨[], rfl, rfl, by simp⟩
  | cons l rest ih =>
    obtain ⟨ts, hts, hmap, hacc⟩ := ih (fun x hx => hwf x (by simp [hx]))
    have hl := hwf l (by simp)
    cases hsp : splitPy l with
    | nil =>
      refine ⟨ts, ?_, ?_, hacc⟩
      · simp only [trackLoop, hsp]
        exact hts
      · simp only [List.filterMap_cons, lineNum, hsp]
        exact hmap
    | cons w ws =>
      rw [lineOK, hsp] at hl
      obtain ⟨num, hnum⟩ := Option.isSome_iff_exists.mp hl
      by_cases ha : access (ifnameFor num) = true
      · refine ⟨Track.mk num (List.intercalate [' '] ws) artist album (ifnameFor num)
            (ofnameFor num) :: ts, ?_, ?_, ?_⟩
        · simp only [trackLoop, hsp, hnum]
          rw [if_pos ha, hts]
        · simp only [List.map_cons, List.filterMap_cons, lineNum, hsp, hnum,
            List.filter_cons]
          rw [if_pos ha, hmap]
        · intro tr htr
          rcases List.mem_cons.mp htr with h | h
          · subst h; exact ha
          · exact hacc tr h
      · refine ⟨ts, ?_, ?_, hacc⟩
        · simp only [trackLoop, hsp, hnum]
          rw [if_neg ha]
          exact hts
        · simp only [List.filterMap_cons, lineNum, hsp, hnum, List.filter_cons]
          rw [if_neg ha]
          exact hmap

/-- Claim C8: the WorkItem source silently omits every track line
whose expected input WAV file is not readable, keeps the readable ones
in source order, and returns the empty list when the listing file is
absent or unreadable. -/
theorem C8_unreadable_tracks_silently_omitted
    (a b : List Char) (rest : List (List Char)) (access : List Char → Bool)
    (hwf : ∀ l ∈ rest, lineOK l = true) :
    (∀ acc : List Char → Bool, trackdata none acc = some []) ∧
    ∃ ts, trackdata (some (a :: b :: rest)) access = some ts ∧
      ts.map Track.num =
        (rest.filterMap lineNum).filter (fun n => access (ifnameFor n)) ∧
      ∀ tr ∈ ts, access tr.ifname = true := by
  refine ⟨fun acc => rfl, ?_⟩
  simp only [trackdata]
  exact trackLoop_spec (stripPy b) (stripPy a) access rest hwf

/-- Witness for C8: the spec's scenario — listing Demo/Artist with
tracks 01 and 02, only `track01.cdda.wav` readable — yields exactly
the one item for track 1. -/
theorem C8_unreadable_tracks_silently_omitted_witness :
    (∀ l ∈ ["01 First".toList, "02 Second".toList], lineOK l = true) ∧
    ((∀ acc : List Char → Bool, trackdata none acc = some []) ∧
      ∃ ts, trackdata
          (some ["Demo".toList, "Artist".toList, "01 First".toList, "02 Second".toList])
          (fun s => s == "track01.cdda.wav".toList) = some ts ∧
        ts.map Track.num =
          ((["01 First".toList, "02 Second".toList].filterMap lineNum).filter
            (fun n => (fun s => s == "track01.cdda.wav".toList) (ifnameFor n))) ∧
        ∀ tr ∈ ts, (fun s => s == "track01.cdda.wav".toList) tr.ifname = true) ∧
    ((["01 First".toList, "02 Second".toList].filterMap lineNum).filter
      (fun n => (fun s => s == "track01.cdda.wav".toList) (ifnameFor n))) = [1] :=
  ⟨by decide,
    C8_unreadable_tracks_silently_omitted "Demo".toList "Artist".toList
      ["01 First".toList, "02 Second".toList]
      (fun s => s == "track01.cdda.wav".toList) (by decide),
    by decide⟩

/-- Claim C10: a listing file that exists but holds fewer than two
lines makes `trackdata` raise an uncaught IndexError (modelled as
`none`) instead of returning the empty list; only the absent or
unreadable file yields the graceful `some []`. -/
theorem C10_short_listing_raises (lines : List (List Char))
    (access : List Char → Bool) (h : lines.length < 2) :
    trackdata (some lines) access = none ∧ trackdata none access = some [] := by
  refine ⟨?_, rfl⟩
  cases lines with
  | nil => rfl
  | cons a t =>
    cases t with
    | nil => rfl
    | cons b r =>
      exfalso
      simp only [List.length_cons] at h
      omega

/-- Witness for C10: the empty listing file. -/
theorem C10_short_listing_raises_witness :
    ([] : List (List Char)).length < 2 ∧
    (trackdata (some []) (fun _ => false) = none ∧
      trackdata none (fun _ => false) = some []) :=
  ⟨by decide, C10_short_listing_raises [] (fun _ => false) (by decide)⟩

/-! ## Model of `tiffconv` from `tifftopdf.py`

The environment supplies the two external tools: `probe` is
`subprocess.check_output(['tiffinfo', fname])` already split into
words (`none` when the call raises), `call` is
`subprocess.call(args)` for `tiff2pdf` (`none` when the call raises).
Python floats are embedded as rationals; the numeric rendering inside
the suppressed argument vector is abstracted by `toString`.
-/

/-- Python `float()` on an unsigned decimal literal without exponent:
digits with an optional decimal point, at least one digit; `none`
models a ValueError. -/
def parseFloatMag (rest : List Char) : Option ℚ :=
  let intPart := rest.takeWhile Char.isDigit
  let after := rest.drop intPart.length
  match after with
  | [] => if intPart.isEmpty then none else some (digitsVal intPart : ℚ)
  | '.' :: frac =>
    if frac.all Char.isDigit && !(intPart.isEmpty && frac.isEmpty) then
      some ((digitsVal intPart : ℚ) + (digitsVal frac : ℚ) / (10 : ℚ) ^ frac.length)
    else none
  | _ => none

/-- Python `float()` with an optional sign. -/
def parseFloat (s : List Char) : Option ℚ :=
  match s with
  | '+' :: rest => parseFloatMag rest
  | '-' :: rest => (parseFloatMag rest).map (fun q => -q)
  | rest => parseFloatMag rest

/-- Python `list.index` as an optional index (`txt.index(w)` raises
ValueError when absent, which the callers turn into control flow). -/
def idxOfW (w : List Char) (txt : List (List Char)) : Option Nat :=
  txt.findIdx? (fun x => x == w)

/-- The inner try of `tiffconv` (tifftopdf.py lines 115-120): look up
`Resolution:` and parse the two following words (the first with its
trailing comma stripped by `[:-1]`).  `some none` is the caught
ValueError path (absent word or unparsable float, leaving
`xres, yres = None, None`); `some (some (x, y))` is success; `none` is
an IndexError escaping to the outer handler. -/
def resLookup (txt : List (List Char)) : Option (Option (ℚ × ℚ)) :=
  match idxOfW ("Resolution:".toList) txt with
  | none => some none
  | some i =>
    match txt[i+1]? with
    | none => none
    | some s1 =>
      match parseFloat s1.dropLast with
      | none => some none
      | some x =>
        match txt[i+2]? with
        | none => none
        | some s2 =>
          match parseFloat s2 with
          | none => some none
          | some y => some (some (x, y))

/-- External-tool environment for `tifftopdf.py`. -/
structure TiffEnv where
  probe : List Char → Option (List (List Char))
  call : List (List Char) → Option Int

/-- Observable outcome of one `tiffconv` call: the returned
`(fname, rv)` pair, whether the fit-to-A4 warning was logged, the
`tiff2pdf` argument vector when the conversion subprocess ran, and
whether the outer exception handler logged an error. -/
structure TiffOutcome where
  result : List Char × Int
  warnedA4 : Bool
  called : Option (List (List Char))
  errorLogged : Bool
deriving DecidableEq, Repr

/-- Fallback argument core `-o outname -z -p A4 -F fname`
(tifftopdf.py line 132). -/
def a4ArgsCore (outname fname : List Char) : List (List Char) :=
  ["-o".toList, outname, "-z".toList, "-p".toList, "A4".toList, "-F".toList, fname]

/-- Resolution-derived argument core (tifftopdf.py lines 124-130). -/
def resArgsCore (width length xres yres : ℚ) (outname fname : List Char) :
    List (List Char) :=
  ["-w".toList, (toString (width / xres)).toList, "-l".toList,
   (toString (length / xres)).toList, "-x".toList, (toString xres).toList,
   "-y".toList, (toString yres).toList, "-o".toList, outname, fname]

/-- Full `tiff2pdf` argument vector (tifftopdf.py lines 135-138). -/
def tiffArgs (jpeg : Bool) (quality : Int) (core : List (List Char)) :
    List (List Char) :=
  if jpeg then
    "tiff2pdf".toList ::
      ("-n".toList :: "-j".toList :: "-q".toList :: (toString quality).toList :: core)
  else "tiff2pdf".toList :: core

/-- Embedding of `tiffconv` (tifftopdf.py lines 94-146).  Every
exception inside the outer try — probe failure, missing `Width:`,
IndexError on the word list, unparsable floats, a raising
`subprocess.call` — lands in the handler that logs an error and
returns `(fname, 0)`. -/
def tiffconv (env : TiffEnv) (jpeg : Bool) (quality : Int) (fname : List Char) :
    TiffOutcome :=
  match env.probe fname with
  | none => ⟨(fname, 0), false, none, true⟩
  | some txt =>
    match idxOfW ("Width:".toList) txt with
    | none => ⟨(fname, 0), false, none, true⟩
    | some index =>
      match txt[index+1]? with
      | none => ⟨(fname, 0), false, none, true⟩
      | some w1 =>
        match parseFloat w1 with
        | none => ⟨(fname, 0), false, none, true⟩
        | some width =>
          match txt[index+4]? with
          | none => ⟨(fname, 0), false, none, true⟩
          | some w4 =>
            match parseFloat w4 with
            | none => ⟨(fname, 0), false, none, true⟩
            | some length =>
              match resLookup txt with
              | none => ⟨(fname, 0), false, none, true⟩
              | some resOpt =>
                let outname := tifOutname fname
                let cw :=
                  match resOpt with
                  | some (x, y) =>
                    if x ≠ 0 then (resArgsCore width length x y outname fname, false)
                    else (a4ArgsCore outname fname, true)
                  | none => (a4ArgsCore outname fname, true)
                let args := tiffArgs jpeg quality cw.1
                match env.call args with
                | none => ⟨(fname, 0), cw.2, none, true⟩
                | some rv => ⟨(fname, rv), cw.2, some args, false⟩

/-- Embedding of `checkfor` (tifftopdf.py lines 68-91 and vid2mkv.py
lines 60-83): `probe` is the observed exit status of the probe
invocation, `none` when invoking it raised OSError.  A status
differing from the expected `rv` raises OSError too; both failure
paths log and `sys.exit(1)`, so the function reduces to whether the
check passed. -/
def checkfor (probe : Option Int) (rv : Int) : Bool :=
  match probe with
  | some rc => rc == rv
  | none => false

/-- Observable run of `main` from `tifftopdf.py`. -/
structure TiffRun where
  exitCode : Nat
  processed : List (List Char × Int)
  finishedLog : List (List Char)
  errorLog : List (List Char × Int)
deriving DecidableEq, Repr

/-- Embedding of `main` (tifftopdf.py lines 27-65): two precondition
probes (`tiffinfo` must exit 255, `tiff2pdf -v` must exit 0), then one
`tiffconv` per file through the worker pool, logging `finished` for
return value 0 and an error line otherwise. -/
def mainTiff (probeInfo probePdf : Option Int) (env : TiffEnv) (jpeg : Bool)
    (quality : Int) (files : List (List Char)) : TiffRun :=
  if checkfor probeInfo 255 then
    if checkfor probePdf 0 then
      let convs := files.map (fun f => (tiffconv env jpeg quality f).result)
      { exitCode := 0, processed := convs,
        finishedLog := (convs.filter (fun p => p.2 == 0)).map Prod.fst,
        errorLog := convs.filter (fun p => !(p.2 == 0)) }
    else ⟨1, [], [], []⟩
  else ⟨1, [], [], []⟩

/-! ## Launch failures and the A4 fallback (claims C4 and C9) -/

/-- Claim C4 (evidence for the code defect): when the `tiffinfo` probe
for a file cannot even be started, `tiffconv` swallows the exception
(`main` does not crash) but returns return value 0, and `main`
classifies the item as finished — the launch failure is reported as a
success, not with a code distinguishable from success. -/
theorem C4_launch_failure_reported_as_success :
    (tiffconv ⟨fun _ => none, fun _ => none⟩ false 85 ("scan.tif".toList)).result =
      ("scan.tif".toList, 0) ∧
    (tiffconv ⟨fun _ => none, fun _ => none⟩ false 85 ("scan.tif".toList)).errorLogged =
      true ∧
    mainTiff (some 255) (some 0) ⟨fun _ => none, fun _ => none⟩ false 85
        [("scan.tif".toList)] =
      ⟨0, [("scan.tif".toList, 0)], [("scan.tif".toList)], []⟩ :=
  ⟨rfl, rfl, rfl⟩

/-- Claim C9: when the `tiffinfo` output holds a parsable width and
length but no `Resolution:` word, `tiffconv` logs the fit-to-A4
warning, substitutes the fixed A4 page-size argument set, and still
runs the conversion — the item's outcome is `tiff2pdf`'s own return
value, not a failure produced by the missing metadata. -/
theorem C9_missing_resolution_falls_back_to_A4
    (env : TiffEnv) (fname : List Char) (txt : List (List Char))
    (i : Nat) (w1 w4 : List Char) (width length : ℚ) (rv : Int)
    (hprobe : env.probe fname = some txt)
    (hidx : idxOfW ("Width:".toList) txt = some i)
    (hw1 : txt[i+1]? = some w1) (hpw1 : parseFloat w1 = some width)
    (hw4 : txt[i+4]? = some w4) (hpw4 : parseFloat w4 = some length)
    (hres : idxOfW ("Resolution:".toList) txt = none)
    (hcall : env.call (tiffArgs false 85 (a4ArgsCore (tifOutname fname) fname)) =
      some rv) :
    tiffconv env false 85 fname =
      ⟨(fname, rv), true,
        some (tiffArgs false 85 (a4ArgsCore (tifOutname fname) fname)), false⟩ := by
  simp only [tiffconv, hprobe, hidx, hw1, hpw1, hw4, hpw4, resLookup, hres, hcall]

/-- Witness for C9: a tiffinfo word list with width 100 and length 200
and no resolution entry. -/
theorem C9_missing_resolution_falls_back_to_A4_witness :
    (TiffEnv.mk
        (fun _ => some ["Image".toList, "Width:".toList, "100".toList,
          "Image".toList, "Length:".toList, "200".toList])
        (fun _ => some 0)).probe ("scan.tif".toList) =
      some ["Image".toList, "Width:".toList, "100".toList, "Image".toList,
        "Length:".toList, "200".toList] ∧
    idxOfW ("Width:".toList) ["Image".toList, "Width:".toList, "100".toList,
      "Image".toList, "Length:".toList, "200".toList] = some 1 ∧
    parseFloat ("100".toList) = some 100 ∧
    parseFloat ("200".toList) = some 200 ∧
    idxOfW ("Resolution:".toList) ["Image".toList, "Width:".toList, "100".toList,
      "Image".toList, "Length:".toList, "200".toList] = none ∧
    tiffconv
        (TiffEnv.mk
          (fun _ => some ["Image".toList, "Width:".toList, "100".toList,
            "Image".toList, "Length:".toList, "200".toList])
          (fun _ => some 0))
        false 85 ("scan.tif".toList) =
      ⟨("scan.tif".toList, 0), true,
        some (tiffArgs false 85
          (a4ArgsCore (tifOutname ("scan.tif".toList)) ("scan.tif".toList))), false⟩ :=
  ⟨rfl, by decide, by decide, by decide, by decide,
    C9_missing_resolution_falls_back_to_A4 _ _ _ 1 ("100".toList) ("200".toList)
      100 200 0 rfl (by decide) (by decide) (by decide) (by decide) (by decide)
      (by decide) rfl⟩

/-! ## Models of `main` from `vid2mkv.py` and `make-mp3.py` -/

/-- Observable run of `main` from `vid2mkv.py`. -/
structure VidRun where
  exitCode : Nat
  launched : List (List Char)
  failures : List (List Char × Int)
deriving DecidableEq, Repr

/-- Embedding of `main` (vid2mkv.py lines 25-57): probe
`ffmpeg -version` (expected status 0, `sys.exit(1)` on failure before
anything is launched), then one `runencoder` per file through the
worker pool; the failure lines are the conversions with non-zero
return value. -/
def mainVid (probe : Option Int) (rvOf : List Char → Int)
    (files : List (List Char)) : VidRun :=
  if checkfor probe 0 then
    let convs := files.map (runencoder rvOf)
    { exitCode := 0,
      launched := convs.filterMap EncOutcome.ofn,
      failures := (convs.map EncOutcome.result).filter (fun p => !(p.2 == 0)) }
  else ⟨1, [], []⟩

/-- Observable run of `main` from `make-mp3.py`.  `exitCode = none`
models an uncaught exception. -/
structure Mp3Run where
  exitCode : Option Nat
  noTracksMsg : Bool
  usageMsg : Bool
  launched : Nat
  recs : List (String × Int)
deriving DecidableEq, Repr

/-- The WorkItem of one track under the mock `lame` environment `env`
giving each track's subprocess exit code and duration. -/
def trackItem (env : Track → Int × Nat) (tr : Track) : WorkItem :=
  { name := String.mk tr.ofname, code := (env tr).1, dur := (env tr).2 }

/-- Embedding of `main` (make-mp3.py lines 109-128).  The leading
`checkfor(['lame', '--help'])` comes from a module that is not part of
this repository; it is modelled from the spec's tool-presence-checker
contract (failure exits 1 before any WorkItem is processed), reusing
the `checkfor` embedded from the sibling scripts.  With no tracks the
program prints `No tracks found.` plus a usage message and calls
`sys.exit(1)`; otherwise every track is launched through the bounded
dispatcher and `main` falls off the end (exit status 0). -/
def mainMp3 (lameProbe : Option Int) (contents : Option (List (List Char)))
    (access : List Char → Bool) (m : Nat) (env : Track → Int × Nat) : Mp3Run :=
  if checkfor lameProbe 0 then
    match trackdata contents access with
    | none => ⟨none, false, false, 0, []⟩
    | some [] => ⟨some 1, true, true, 0, []⟩
    | some (t :: ts) =>
      ⟨some 0, false, false, (t :: ts).length,
        (dispatchRun m ((t :: ts).map (trackItem env))).recs⟩
  else ⟨some 1, false, false, 0, []⟩

/-! ## Precondition failures and the empty input (claims C7 and C5) -/

/-- Claim C7: when a required external tool's presence probe fails —
the probe invocation raises OSError or reports an unexpected status —
the whole program exits with code 1 and zero WorkItems are launched;
shown for `vid2mkv` (`ffmpeg -version`, expected 0) and `tifftopdf`
(`tiffinfo`, expected 255). -/
theorem C7_precondition_failure_aborts_before_launch
    (probe probeInfo probePdf : Option Int) (rvOf : List Char → Int)
    (env : TiffEnv) (jpeg : Bool) (q : Int) (files : List (List Char))
    (hv : checkfor probe 0 = false) (ht : checkfor probeInfo 255 = false) :
    mainVid probe rvOf files = ⟨1, [], []⟩ ∧
    mainTiff probeInfo probePdf env jpeg q files = ⟨1, [], [], []⟩ := by
  constructor
  · simp [mainVid, hv]
  · simp [mainTiff, ht]

/-- Witness for C7: missing `ffmpeg` (probe raises) and a `tiffinfo`
that exits 0 instead of 255. -/
theorem C7_precondition_failure_aborts_before_launch_witness :
    checkfor none 0 = false ∧ checkfor (some 0) 255 = false ∧
    (mainVid none (fun _ => 0) [("a.mp4".toList)] = ⟨1, [], []⟩ ∧
      mainTiff (some 0) (some 0) ⟨fun _ => none, fun _ => none⟩ false 85
        [("a.tif".toList)] = ⟨1, [], [], []⟩) :=
  ⟨by decide, by decide,
    C7_precondition_failure_aborts_before_launch none (some 0) (some 0) (fun _ => 0)
      ⟨fun _ => none, fun _ => none⟩ false 85 [("a.tif".toList)]
      (by decide) (by decide)⟩

/-- Claim C5 counterexample: with `lame` present and the `titels`
file absent (so the WorkItem list is empty), `make-mp3.py` prints the
nothing-to-do and usage messages and performs zero launches, but its
exit status is 1, not the no-error status 0 the claim states. -/
theorem C5_counterexample :
    (mainMp3 (some 0) none (fun _ => false) 4 (fun _ => (0, 0))).launched = 0 ∧
    (mainMp3 (some 0) none (fun _ => false) 4 (fun _ => (0, 0))).noTracksMsg = true ∧
    (mainMp3 (some 0) none (fun _ => false) 4 (fun _ => (0, 0))).exitCode ≠ some 0 ∧
    (mainMp3 (some 0) none (fun _ => false) 4 (fun _ => (0, 0))).exitCode = some 1 := by
  refine ⟨rfl, rfl, ?_, rfl⟩
  intro h
  cases h

/-- Claim C5 (amended): an empty WorkItem list causes zero subprocess
launches and the nothing-to-do indication (`No tracks found.` plus the
usage message), and the program terminates via `sys.exit(1)` — exit
status 1, not 0. -/
theorem C5_empty_input_zero_launches_exit_one
    (lameProbe : Option Int) (contents : Option (List (List Char)))
    (access : List Char → Bool) (m : Nat) (env : Track → Int × Nat)
    (hok : checkfor lameProbe 0 = true)
    (hempty : trackdata contents access = some []) :
    mainMp3 lameProbe contents access m env = ⟨some 1, true, true, 0, []⟩ := by
  simp [mainMp3, hok, hempty]

/-- Witness for the amended C5: `lame` present, listing file absent. -/
theorem C5_empty_input_zero_launches_exit_one_witness :
    checkfor (some 0) 0 = true ∧
    trackdata none (fun _ => false) = some [] ∧
    mainMp3 (some 0) none (fun _ => false) 4 (fun _ => (0, 0)) =
      ⟨some 1, true, true, 0, []⟩ :=
  ⟨by decide, rfl,
    C5_empty_input_zero_launches_exit_one (some 0) none (fun _ => false) 4
      (fun _ => (0, 0)) (by decide) rfl⟩
